import Mathlib

/-!
Verification of the `concurrent` package of the order-system repository:
the atomic `Counter` (wrapping signed 64-bit arithmetic) and the worker
`Pool` (bounded-concurrency task executor with close/drain semantics).

The `Counter` is embedded as a pure state-passing function model: Go's
`atomic.AddInt64` et al. become functions `Counter → Int × Counter` whose
value component is kept in the signed 64-bit range by explicit wrapping
modulo 2^64.

The `Pool`, whose interesting behaviour is concurrent, is embedded as a
labelled transition system over a state that counts, for the pool itself,
the channel occupancy (held admission permits), the `sync.WaitGroup`
counter and the `closed` flag, and, for the environment, how many Submit
calls are between the closed-check and the `wg.Add`, and how many spawned
task goroutines are in each phase (pending admission, running, permit
released, done).  Each labelled step is one of the atomic actions the Go
code performs under its lock / channel / atomic primitives.
-/

set_option autoImplicit false

namespace OrderSystem

/-! ### Signed 64-bit wrapping arithmetic -/

/-- The constant 2^63 as an integer. -/
def twoP63 : Int := 9223372036854775808

/-- The constant 2^64 as an integer. -/
def twoP64 : Int := 18446744073709551616

/-- Smallest value of Go's int64. -/
def int64Min : Int := -9223372036854775808

/-- Largest value of Go's int64. -/
def int64Max : Int := 9223372036854775807

/-- Predicate: `n` is representable as a Go int64. -/
def isInt64 (n : Int) : Prop := int64Min ≤ n ∧ n ≤ int64Max

instance (n : Int) : Decidable (isInt64 n) := by
  unfold isInt64; infer_instance

/-- Reduce an integer to its signed 64-bit representative:
the unique value congruent to `n` modulo 2^64 lying in
`[int64Min, int64Max]`.  This is the value Go's wrapping int64
arithmetic produces. -/
def toInt64 (n : Int) : Int := (n + twoP63) % twoP64 - twoP63

theorem toInt64_isInt64 (n : Int) : isInt64 (toInt64 n) := by
  unfold toInt64 isInt64 int64Min int64Max twoP63 twoP64
  omega

theorem toInt64_eq_self {n : Int} (h : isInt64 n) : toInt64 n = n := by
  unfold toInt64 at *
  unfold isInt64 int64Min int64Max at h
  unfold twoP63 twoP64
  omega

theorem toInt64_emod (n : Int) : toInt64 n % twoP64 = n % twoP64 := by
  unfold toInt64 twoP63 twoP64
  omega

theorem toInt64_add_left (a b : Int) : toInt64 (toInt64 a + b) = toInt64 (a + b) := by
  unfold toInt64 twoP63 twoP64
  omega

/-! ### The atomic Counter (`concurrent.Counter`)

Go source: a struct holding a single `value int64`, mutated through
`sync/atomic`.  Each operation is a single atomic machine operation, so a
state-passing functional model is faithful: concurrent histories of the
counter are linearizable into sequences of these state transformations. -/

/-- Go struct `concurrent.Counter`: holds a single signed 64-bit value. -/
structure Counter where
  value : Int
deriving Repr, DecidableEq

/-- Go function `concurrent.NewCounter(initial int64)`. -/
def NewCounter (initial : Int) : Counter := ⟨initial⟩

/-- Go method `Counter.Add`: `atomic.AddInt64(&c.value, delta)`, wrapping 64-bit
addition; returns the value after the add together with the new state. -/
def Counter.Add (c : Counter) (delta : Int) : Int × Counter :=
  let v := toInt64 (c.value + delta)
  (v, ⟨v⟩)

/-- Go method `Counter.Increment`: `atomic.AddInt64(&c.value, 1)`. -/
def Counter.Increment (c : Counter) : Int × Counter := c.Add 1

/-- Go method `Counter.Decrement`: `atomic.AddInt64(&c.value, -1)`. -/
def Counter.Decrement (c : Counter) : Int × Counter := c.Add (-1)

/-- Go method `Counter.Value`: `atomic.LoadInt64(&c.value)`; no state change. -/
def Counter.Value (c : Counter) : Int := c.value

/-- Go method `Counter.Reset`: `atomic.StoreInt64(&c.value, 0)`. -/
def Counter.Reset (_c : Counter) : Counter := ⟨0⟩

/-- Go method `Counter.CompareAndSwap`: `atomic.CompareAndSwapInt64(&c.value, old, new)`;
returns whether the swap occurred, together with the new state. -/
def Counter.CompareAndSwap (c : Counter) (old new : Int) : Bool × Counter :=
  if c.value = old then (true, ⟨new⟩) else (false, c)

/-- Iterate `Increment` n times, discarding returned values. -/
def incN : Nat → Counter → Counter
  | 0, c => c
  | n + 1, c => incN n (c.Increment).2

/-- Iterate `Decrement` n times, discarding returned values. -/
def decN : Nat → Counter → Counter
  | 0, c => c
  | n + 1, c => decN n (c.Decrement).2

theorem incN_value (n : Nat) (c : Counter) (h : isInt64 c.value) :
    (incN n c).value = toInt64 (c.value + n) := by
  induction n generalizing c with
  | zero =>
    simp only [incN]
    rw [show c.value + ((0 : Nat) : Int) = c.value by push_cast; ring]
    exact (toInt64_eq_self h).symm
  | succ n ih =>
    have hrange : isInt64 (toInt64 (c.value + 1)) := toInt64_isInt64 _
    simp only [incN, Counter.Increment, Counter.Add]
    rw [ih ⟨toInt64 (c.value + 1)⟩ hrange]
    show toInt64 (toInt64 (c.value + 1) + n) = _
    rw [toInt64_add_left]
    congr 1
    push_cast
    ring

theorem decN_value (n : Nat) (c : Counter) (h : isInt64 c.value) :
    (decN n c).value = toInt64 (c.value - n) := by
  induction n generalizing c with
  | zero =>
    simp only [decN]
    rw [show c.value - (0 : Nat) = c.value by push_cast; ring]
    exact (toInt64_eq_self h).symm
  | succ n ih =>
    have hrange : isInt64 (toInt64 (c.value + -1)) := toInt64_isInt64 _
    simp only [decN, Counter.Decrement, Counter.Add]
    rw [ih ⟨toInt64 (c.value + -1)⟩ hrange]
    show toInt64 (toInt64 (c.value + -1) + -(n : Int)) = _
    rw [toInt64_add_left]
    congr 1
    push_cast
    ring

theorem toInt64_sub_left (a b : Int) : toInt64 (toInt64 a - b) = toInt64 (a - b) := by
  rw [sub_eq_add_neg, sub_eq_add_neg]
  exact toInt64_add_left a (-b)

/-- C5: `CompareAndSwap(expected, newValue)` returns true and sets the
counter to `newValue` exactly when the current value equals `expected`;
otherwise it returns false and leaves the counter unchanged. -/
theorem counter_cas_spec (c : Counter) (old new : Int) :
    (c.value = old → c.CompareAndSwap old new = (true, ⟨new⟩)) ∧
    (c.value ≠ old → c.CompareAndSwap old new = (false, c)) := by
  constructor <;> intro h <;> simp [Counter.CompareAndSwap, h]

/-- Witness for `counter_cas_spec` at counter value 5, expected 5 / 4, new 7. -/
theorem counter_cas_spec_witness :
    (NewCounter 5).CompareAndSwap 5 7 = (true, ⟨7⟩) ∧
    (NewCounter 4).CompareAndSwap 5 7 = (false, NewCounter 4) :=
  ⟨(counter_cas_spec (NewCounter 5) 5 7).1 rfl,
   (counter_cas_spec (NewCounter 4) 5 7).2 (by decide)⟩

/-- C6: from any starting int64 value `v`, performing `Increment` N times
and then `Decrement` N times returns the counter's value to `v`. -/
theorem counter_inc_dec_roundtrip (v : Int) (n : Nat) (h : isInt64 v) :
    (decN n (incN n (NewCounter v))).value = v := by
  have h1 : (incN n (NewCounter v)).value = toInt64 (v + n) := incN_value n _ h
  have h2 : isInt64 (incN n (NewCounter v)).value := by rw [h1]; exact toInt64_isInt64 _
  have h3 := decN_value n (incN n (NewCounter v)) h2
  rw [h1] at h3
  rw [h3, toInt64_sub_left]
  rw [show v + (n : Int) - n = v by ring]
  exact toInt64_eq_self h

/-- Witness for `counter_inc_dec_roundtrip` at v = 41, N = 3. -/
theorem counter_inc_dec_roundtrip_witness :
    (decN 3 (incN 3 (NewCounter 41))).value = 41 :=
  counter_inc_dec_roundtrip 41 3 (by decide)

/-- C7 (amended): `Increment` yields v+1 whenever v < int64Max (at
int64Max it wraps, see the overflow theorem); `Decrement` yields v-1
whenever v > int64Min, with no floor at zero (from 0 it yields -1);
`Add(delta)` yields v+delta whenever that sum is representable as int64;
`Value` returns the current value without changing the counter. -/
theorem counter_ops_spec (c : Counter) (delta : Int) (h : isInt64 c.value) :
    (c.value < int64Max → c.Increment = (c.value + 1, ⟨c.value + 1⟩)) ∧
    (int64Min < c.value → c.Decrement = (c.value - 1, ⟨c.value - 1⟩)) ∧
    ((NewCounter 0).Decrement).1 = -1 ∧
    (isInt64 (c.value + delta) → c.Add delta = (c.value + delta, ⟨c.value + delta⟩)) ∧
    c.Value = c.value := by
  obtain ⟨hlo, hhi⟩ := h
  refine ⟨?_, ?_, by decide, ?_, rfl⟩
  · intro hlt
    have : isInt64 (c.value + 1) := by unfold isInt64 at *; omega
    simp [Counter.Increment, Counter.Add, toInt64_eq_self this]
  · intro hgt
    have : isInt64 (c.value + -1) := by unfold isInt64 int64Min at *; omega
    simp [Counter.Decrement, Counter.Add, toInt64_eq_self this, sub_eq_add_neg]
  · intro hrange
    simp [Counter.Add, toInt64_eq_self hrange]

/-- Witness for `counter_ops_spec` at counter value 0, delta 5. -/
theorem counter_ops_spec_witness :
    (NewCounter 0).Increment = (1, ⟨1⟩) ∧
    (NewCounter 0).Decrement = (-1, ⟨-1⟩) ∧
    (NewCounter 0).Add 5 = (5, ⟨5⟩) ∧
    (NewCounter 0).Value = 0 := by
  have h := counter_ops_spec (NewCounter 0) 5 (by decide)
  exact ⟨by simpa using h.1 (by decide), by simpa using h.2.1 (by decide),
         by simpa using h.2.2.2.1 (by decide), h.2.2.2.2⟩

/-- C7 counterexample: at the maximum int64 value, `Increment` does not
return v+1 (it wraps), so the unrestricted claim fails. -/
theorem counter_inc_overflow_cex :
    ((NewCounter int64Max).Increment).1 ≠ int64Max + 1 := by decide

/-- C9: counter arithmetic is exact wrapping two's-complement 64-bit
arithmetic: `Add(delta)` yields the unique int64-range value congruent to
v+delta modulo 2^64 (in particular it never fails or saturates), and
`Increment` at int64Max wraps to int64Min. -/
theorem counter_wrap_spec (c : Counter) (delta : Int) :
    (c.Add delta).1 % twoP64 = (c.value + delta) % twoP64 ∧
    isInt64 (c.Add delta).1 ∧
    (NewCounter int64Max).Increment = (int64Min, ⟨int64Min⟩) :=
  ⟨toInt64_emod _, toInt64_isInt64 _, by decide⟩

/-! ### The worker Pool (`concurrent.Pool`)

Go source structure: `workers chan struct` of capacity `size` (admission
permits: a task sends to acquire, receives to release), `wg sync.WaitGroup`
(outstanding accounting: `Add(1)` in Submit, deferred `Done` in the task
goroutine), `closed bool` guarded by `mu sync.Mutex`, and an unused
`activeJobs int32`.

The embedding is a labelled transition system.  Each label is one atomic
action of the Go code:
* `submitOk`    - a Submit call locks `mu`, reads `closed = false`,
                  unlocks, and proceeds (the lock is RELEASED here,
                  before `wg.Add`, exactly as in the source);
* `submitFail`  - a Submit call locks `mu`, reads `closed = true`,
                  unlocks and returns the "pool is closed" error;
* `spawn`       - a proceeding Submit call performs `wg.Add(1)`, starts
                  the task goroutine (pending admission) and returns nil
                  to its caller (the task is now accepted);
* `closeSet`    - Close locks `mu`, sets `closed = true`, unlocks;
* `closeRet`    - Close's `wg.Wait()` observes counter 0 and Close returns;
* `acquire`     - a pending task goroutine sends on `workers`, enabled only
                  while fewer than `limit` permits are held; the task body
                  now runs;
* `release`     - the task body has returned and the deferred receive on
                  `workers` frees the permit;
* `finish`      - the deferred `wg.Done()` decrements the WaitGroup.

The state counts goroutines in each phase; task identity is irrelevant to
the claims, which are about counts and flags. -/

/-- Go error message of `Pool.Submit` on a closed pool. -/
def poolClosedMsg : String := "pool is closed"

/-- Go runtime error message for `make(chan T, size)` with negative size. -/
def makechanMsg : String := "makechan: size out of range"

/-- Global state of one pool together with its clients' in-flight Submit
calls and the spawned task goroutines. -/
structure PoolSys where
  /-- channel capacity fixed at construction -/
  limit : Nat
  /-- Submit calls past the closed-check but before `wg.Add` -/
  passedCheck : Nat
  /-- spawned task goroutines waiting for an admission permit -/
  nPending : Nat
  /-- task goroutines holding a permit (task body executing) -/
  nRunning : Nat
  /-- task goroutines that released their permit, `wg.Done` not yet run -/
  nReleased : Nat
  /-- task goroutines fully finished -/
  nDone : Nat
  /-- Submit calls that returned nil (accepted tasks) -/
  accepted : Nat
  /-- Submit calls that returned the pool-closed error -/
  rejected : Nat
  /-- state of the `closed` flag -/
  closed : Bool
  /-- whether a Close call has returned -/
  closeReturned : Bool
  /-- the `sync.WaitGroup` counter -/
  wgCount : Nat
deriving Repr, DecidableEq

/-- State of a freshly constructed pool: no clients, nothing spawned. -/
def initPool (limit : Nat) : PoolSys :=
  ⟨limit, 0, 0, 0, 0, 0, 0, 0, false, false, 0⟩

/-- Effect of a Submit call passing the closed-check (lock released after). -/
def submitOkF (s : PoolSys) : PoolSys := { s with passedCheck := s.passedCheck + 1 }

/-- Effect of a Submit call rejected because the pool is closed. -/
def submitFailF (s : PoolSys) : PoolSys := { s with rejected := s.rejected + 1 }

/-- Effect of `wg.Add(1)`, goroutine spawn, and Submit returning nil. -/
def spawnF (s : PoolSys) : PoolSys :=
  { s with passedCheck := s.passedCheck - 1, nPending := s.nPending + 1,
           wgCount := s.wgCount + 1, accepted := s.accepted + 1 }

/-- Effect of Close setting the closed flag under the lock. -/
def closeSetF (s : PoolSys) : PoolSys := { s with closed := true }

/-- Effect of Close's `wg.Wait()` returning. -/
def closeRetF (s : PoolSys) : PoolSys := { s with closeReturned := true }

/-- Effect of a pending task acquiring an admission permit. -/
def acquireF (s : PoolSys) : PoolSys :=
  { s with nPending := s.nPending - 1, nRunning := s.nRunning + 1 }

/-- Effect of a running task releasing its permit. -/
def releaseF (s : PoolSys) : PoolSys :=
  { s with nRunning := s.nRunning - 1, nReleased := s.nReleased + 1 }

/-- Effect of a task goroutine's deferred `wg.Done()`. -/
def finishF (s : PoolSys) : PoolSys :=
  { s with nReleased := s.nReleased - 1, nDone := s.nDone + 1, wgCount := s.wgCount - 1 }

/-- Names of the atomic actions of the pool and its environment. -/
inductive PoolLabel
  | submitOk
  | submitFail
  | spawn
  | closeSet
  | closeRet
  | acquire
  | release
  | finish
deriving Repr, DecidableEq

/-- One atomic step of the pool system.  Guards are exactly the conditions
the Go code checks (mutex-protected flag reads, channel capacity,
WaitGroup counter). -/
inductive PoolStep : PoolSys → PoolLabel → PoolSys → Prop
  | submitOk (s : PoolSys) : s.closed = false → PoolStep s .submitOk (submitOkF s)
  | submitFail (s : PoolSys) : s.closed = true → PoolStep s .submitFail (submitFailF s)
  | spawn (s : PoolSys) : 1 ≤ s.passedCheck → PoolStep s .spawn (spawnF s)
  | closeSet (s : PoolSys) : PoolStep s .closeSet (closeSetF s)
  | closeRet (s : PoolSys) : s.closed = true → s.wgCount = 0 →
      PoolStep s .closeRet (closeRetF s)
  | acquire (s : PoolSys) : 1 ≤ s.nPending → s.nRunning < s.limit →
      PoolStep s .acquire (acquireF s)
  | release (s : PoolSys) : 1 ≤ s.nRunning → PoolStep s .release (releaseF s)
  | finish (s : PoolSys) : 1 ≤ s.nReleased → PoolStep s .finish (finishF s)

/-- Some atomic step, with any label. -/
def stepAny (s t : PoolSys) : Prop := ∃ l, PoolStep s l t

/-- Interleaved executions: reflexive-transitive closure of atomic steps. -/
def Reach : PoolSys → PoolSys → Prop := Relation.ReflTransGen stepAny

/-- Structural invariant of every reachable state: the limit is fixed, the
WaitGroup counter equals the number of spawned-but-unfinished goroutines,
accepted tasks are exactly the spawned goroutines, and at most `limit`
permits are held. -/
def PoolInv (limit : Nat) (s : PoolSys) : Prop :=
  s.limit = limit ∧
  s.wgCount = s.nPending + s.nRunning + s.nReleased ∧
  s.accepted = s.nPending + s.nRunning + s.nReleased + s.nDone ∧
  s.nRunning ≤ limit

theorem poolInv_init (limit : Nat) : PoolInv limit (initPool limit) := by
  simp [PoolInv, initPool]

theorem poolInv_step {limit : Nat} {s t : PoolSys} (h : PoolInv limit s)
    (hs : stepAny s t) : PoolInv limit t := by
  obtain ⟨l, hst⟩ := hs
  cases hst <;>
    simp_all [PoolInv, submitOkF, submitFailF, spawnF, closeSetF, closeRetF,
      acquireF, releaseF, finishF] <;>
    omega

theorem poolInv_reach {limit : Nat} {s : PoolSys}
    (h : Reach (initPool limit) s) : PoolInv limit s := by
  induction h with
  | refl => exact poolInv_init limit
  | tail _ hstep ih => exact poolInv_step ih hstep

/-- C2: for a pool built with limit >= 1, in every reachable state of every
interleaved execution at most `limit` tasks hold an admission permit, i.e.
at most `limit` tasks are concurrently executing. -/
theorem pool_concurrency_bound (limit : Nat) (s : PoolSys)
    (_hlim : 1 ≤ limit) (h : Reach (initPool limit) s) : s.nRunning ≤ limit :=
  (poolInv_reach h).2.2.2

/-- Witness for `pool_concurrency_bound` at limit 2 in the initial state. -/
theorem pool_concurrency_bound_witness : (initPool 2).nRunning ≤ 2 :=
  pool_concurrency_bound 2 (initPool 2) (by decide) Relation.ReflTransGen.refl

/-- C1 exhibit: because Submit releases the mutex between the closed-check
and `wg.Add(1)`, there is an execution of a pool with limit 1 in which a
Submit passes the check, Close then sets `closed` and its `wg.Wait()`
returns at counter 0, and only afterwards the Submit performs `wg.Add`,
spawns the task and returns success — reaching a state where Close has
returned yet one accepted task is not done (it is still pending). -/
theorem pool_close_race :
    Reach (initPool 1) (spawnF (closeRetF (closeSetF (submitOkF (initPool 1))))) ∧
    (spawnF (closeRetF (closeSetF (submitOkF (initPool 1))))).closeReturned = true ∧
    (spawnF (closeRetF (closeSetF (submitOkF (initPool 1))))).accepted = 1 ∧
    (spawnF (closeRetF (closeSetF (submitOkF (initPool 1))))).nDone = 0 ∧
    (spawnF (closeRetF (closeSetF (submitOkF (initPool 1))))).nPending = 1 := by
  refine ⟨?_, rfl, rfl, rfl, rfl⟩
  have h1 : stepAny (initPool 1) (submitOkF (initPool 1)) :=
    ⟨_, .submitOk _ rfl⟩
  have h2 : stepAny (submitOkF (initPool 1)) (closeSetF (submitOkF (initPool 1))) :=
    ⟨_, .closeSet _⟩
  have h3 : stepAny (closeSetF (submitOkF (initPool 1)))
      (closeRetF (closeSetF (submitOkF (initPool 1)))) :=
    ⟨_, .closeRet _ rfl rfl⟩
  have h4 : stepAny (closeRetF (closeSetF (submitOkF (initPool 1))))
      (spawnF (closeRetF (closeSetF (submitOkF (initPool 1))))) :=
    ⟨_, .spawn _ (by decide)⟩
  exact Relation.ReflTransGen.tail
    (Relation.ReflTransGen.tail (Relation.ReflTransGen.tail
      (Relation.ReflTransGen.single h1) h2) h3) h4

/-- Functional embedding of Submit's locked fast path: read `closed` under
the mutex and either reject with the pool-closed error or proceed. -/
def submitCheck (closed : Bool) : Except String Unit :=
  if closed then Except.error poolClosedMsg else Except.ok ()

/-- C3: the closed flag is monotone (no step unsets it); a Submit call that
runs its check after Close has set the flag can only take the rejection
path, whose only effect is returning the pool-closed error (no goroutine
is spawned, no task counter changes, so the task body never runs); and on
an unclosed pool the check path and the spawn/return-nil step are enabled
unconditionally, so Submit accepts and returns success without waiting on
any task. -/
theorem pool_submit_closed_spec (s t : PoolSys) :
    (∀ l u, s.closed = true → PoolStep s l u → u.closed = true) ∧
    (s.closed = true → submitCheck s.closed = Except.error poolClosedMsg) ∧
    (s.closed = true → ¬ PoolStep s .submitOk t) ∧
    (PoolStep s .submitFail t → s.closed = true ∧
      t = { s with rejected := s.rejected + 1 }) ∧
    (s.closed = false → PoolStep s .submitOk (submitOkF s)) ∧
    (1 ≤ s.passedCheck → PoolStep s .spawn (spawnF s)) := by
  refine ⟨?_, ?_, ?_, ?_, ?_, ?_⟩
  · intro l u hc hstep
    cases hstep <;>
      simp_all [submitOkF, submitFailF, spawnF, closeSetF, closeRetF,
        acquireF, releaseF, finishF]
  · intro hc; simp [submitCheck, hc]
  · intro hc hstep
    cases hstep with
    | submitOk hopen => rw [hc] at hopen; exact Bool.noConfusion hopen
  · intro hstep
    cases hstep with
    | submitFail hc => exact ⟨hc, rfl⟩
  · intro hopen; exact .submitOk s hopen
  · intro hpc; exact .spawn s hpc

/-- Witness for `pool_submit_closed_spec`: on a freshly closed pool the
success path is disabled and the check rejects; on a fresh pool the check
path is enabled. -/
theorem pool_submit_closed_spec_witness :
    ¬ PoolStep (closeSetF (initPool 1)) .submitOk
        (submitOkF (closeSetF (initPool 1))) ∧
    submitCheck (closeSetF (initPool 1)).closed = Except.error poolClosedMsg ∧
    PoolStep (initPool 1) .submitOk (submitOkF (initPool 1)) := by
  have h1 := pool_submit_closed_spec (closeSetF (initPool 1))
    (submitOkF (closeSetF (initPool 1)))
  have h2 := pool_submit_closed_spec (initPool 1) (initPool 1)
  exact ⟨h1.2.2.1 rfl, h1.2.1 rfl, h2.2.2.2.2.1 rfl⟩

/-- Decreasing measure for draining the pool: each spawn / acquire /
release / finish step strictly decreases it. -/
def poolMeasure (s : PoolSys) : Nat :=
  4 * s.passedCheck + 3 * s.nPending + 2 * s.nRunning + s.nReleased

theorem pool_drain (n : Nat) :
    ∀ s : PoolSys, poolMeasure s ≤ n → 1 ≤ s.limit →
    s.wgCount = s.nPending + s.nRunning + s.nReleased →
    ∃ t, Reach s t ∧ t.wgCount = 0 ∧ t.closed = s.closed ∧
      t.closeReturned = s.closeReturned := by
  induction n with
  | zero =>
    intro s hm _ hwg
    refine ⟨s, Relation.ReflTransGen.refl, ?_, rfl, rfl⟩
    simp only [poolMeasure] at hm
    omega
  | succ n ih =>
    intro s hm hlim hwg
    by_cases hrel : 1 ≤ s.nReleased
    · obtain ⟨t, ht, h0, hc, hcr⟩ := ih (finishF s)
        (by simp [poolMeasure, finishF] at *; omega)
        hlim
        (by simp [finishF]; omega)
      exact ⟨t, Relation.ReflTransGen.head ⟨_, .finish s hrel⟩ ht, h0, hc, hcr⟩
    · by_cases hrun : 1 ≤ s.nRunning
      · obtain ⟨t, ht, h0, hc, hcr⟩ := ih (releaseF s)
          (by simp [poolMeasure, releaseF] at *; omega)
          hlim
          (by simp [releaseF]; omega)
        exact ⟨t, Relation.ReflTransGen.head ⟨_, .release s hrun⟩ ht, h0, hc, hcr⟩
      · by_cases hpend : 1 ≤ s.nPending
        · obtain ⟨t, ht, h0, hc, hcr⟩ := ih (acquireF s)
            (by simp [poolMeasure, acquireF] at *; omega)
            hlim
            (by simp [acquireF]; omega)
          refine ⟨t, Relation.ReflTransGen.head ⟨_, .acquire s hpend ?_⟩ ht, h0, hc, hcr⟩
          omega
        · by_cases hpc : 1 ≤ s.passedCheck
          · obtain ⟨t, ht, h0, hc, hcr⟩ := ih (spawnF s)
              (by simp [poolMeasure, spawnF] at *; omega)
              hlim
              (by simp [spawnF]; omega)
            exact ⟨t, Relation.ReflTransGen.head ⟨_, .spawn s hpc⟩ ht, h0, hc, hcr⟩
          · refine ⟨s, Relation.ReflTransGen.refl, ?_, rfl, rfl⟩
            omega

/-- C8: calling Close a second time is well-defined.  Setting the closed
flag is idempotent on the pool state; every return of Close's wait step
requires the WaitGroup counter to be zero (so a second Close also blocks
until outstanding work completes); and from any reachable closed state the
system can always drain so that the wait step of a (first or second) Close
is enabled — no deadlock, and Close has no error to return. -/
theorem pool_close_idempotent (limit : Nat) (s : PoolSys)
    (hlim : 1 ≤ limit) (hreach : Reach (initPool limit) s)
    (hclosed : s.closed = true) :
    closeSetF (closeSetF s) = closeSetF s ∧
    (∀ u v : PoolSys, PoolStep u .closeRet v → u.wgCount = 0) ∧
    ∃ t, Reach s t ∧ t.closed = true ∧ t.wgCount = 0 ∧
      PoolStep t .closeRet (closeRetF t) := by
  obtain ⟨hl, hwg, _, _⟩ := poolInv_reach hreach
  refine ⟨rfl, ?_, ?_⟩
  · intro u v hstep
    cases hstep with
    | closeRet _ h0 => exact h0
  · obtain ⟨t, ht, h0, hc, _⟩ := pool_drain (poolMeasure s) s le_rfl (hl ▸ hlim) hwg
    rw [hclosed] at hc
    exact ⟨t, ht, hc, h0, .closeRet t hc h0⟩

/-- Witness for `pool_close_idempotent` at limit 1 on the state right
after Close set the flag. -/
theorem pool_close_idempotent_witness :
    closeSetF (closeSetF (closeSetF (initPool 1))) = closeSetF (closeSetF (initPool 1)) ∧
    ∃ t, Reach (closeSetF (initPool 1)) t ∧ t.closed = true ∧ t.wgCount = 0 ∧
      PoolStep t .closeRet (closeRetF t) := by
  have h := pool_close_idempotent 1 (closeSetF (initPool 1)) (by decide)
    (Relation.ReflTransGen.single ⟨_, .closeSet (initPool 1)⟩) rfl
  exact ⟨h.1, h.2.2⟩

/-- Go function `concurrent.NewPool(size int)`: builds a Pool whose `workers` channel
has capacity `size`.  The Go code performs no validation: for a negative
size the runtime's channel construction raises a fatal error (modelled as
`Except.error`), and any size >= 0, including 0, yields a pool in its
initial state. -/
def NewPool (size : Int) : Except String PoolSys :=
  if size < 0 then Except.error makechanMsg
  else Except.ok (initPool size.toNat)

/-- C4 counterexample: construction with limit 0 (a value the claim says
is rejected fail-fast) succeeds and returns a pool. -/
theorem newPool_zero_cex : NewPool 0 = Except.ok (initPool 0) := rfl

/-- C4 (amended): NewPool performs no fail-fast validation of the limit.
Any size >= 0 — including the contract-violating 0 — is accepted and
yields a pool; a pool built with limit 0 never admits any task (degenerate
"never admits" behaviour); only a negative size fails at construction, and
only because the runtime's channel allocation rejects it. -/
theorem newPool_no_validation (size : Int) (s : PoolSys) :
    (0 ≤ size → NewPool size = Except.ok (initPool size.toNat)) ∧
    (size < 0 → NewPool size = Except.error makechanMsg) ∧
    (Reach (initPool 0) s → s.nRunning = 0) := by
  refine ⟨?_, ?_, ?_⟩
  · intro h
    simp [NewPool, not_lt.mpr h]
  · intro h
    simp [NewPool, h]
  · intro h
    exact Nat.le_zero.mp (poolInv_reach h).2.2.2

/-- Witness for `newPool_no_validation` at sizes 3 and -1 and the initial
limit-0 pool state. -/
theorem newPool_no_validation_witness :
    NewPool 3 = Except.ok (initPool 3) ∧
    NewPool (-1) = Except.error makechanMsg ∧
    (initPool 0).nRunning = 0 := by
  have h3 := newPool_no_validation 3 (initPool 0)
  have hneg := newPool_no_validation (-1) (initPool 0)
  exact ⟨h3.1 (by decide), hneg.2.1 (by decide),
    h3.2.2 Relation.ReflTransGen.refl⟩

end OrderSystem
